import Mathlib

/-
Shallow embedding of the Conference-Network-Matcher core
(`contacts_matcher.py`): CSV column detection, contact-store partition
replacement, key normalization, and fuzzy attendee matching.

Modelling conventions:
- a pandas DataFrame read from CSV is a `Csv`: a header list plus rows of
  cells, where a cell `none` stands for a missing value (pandas NaN);
  `str(...)` of a missing cell prints as the string "nan", mirrored by `pyStr`;
- the sqlite contacts table is a `List Contact` in rowid (insertion) order;
  `SELECT *` returns that order, `DELETE ... WHERE` is a filter, `INSERT`
  appends;
- Python exceptions are `Except.error` with the message; the caller leaves the
  store untouched on an error;
- rapidfuzz `fuzz.token_sort_ratio` returns `200 * lcs / (len1 + len2)` on the
  token-sorted strings (Indel normalized similarity, scaled to 0..100), an
  exact rational here; `process.extractOne` keeps the first strictly best
  candidate.
-/

attribute [local semireducible] Rat.mul Rat.add Rat.inv Rat.sub

namespace ContactsMatcher

/-- Python str.split() / str.strip() whitespace set. -/
def isPySpace (c : Char) : Bool :=
  c = ' ' || c = '\t' || c = '\n' || c = '\r' || c = '\x0B' || c = '\x0C'

/-- Drop the characters satisfying `p` from the right end of a list. -/
def rdrop (p : Char → Bool) (l : List Char) : List Char :=
  (l.reverse.dropWhile p).reverse

/-- Drop the characters satisfying `p` from both ends (Python `str.strip`). -/
def dropEnds (p : Char → Bool) (l : List Char) : List Char :=
  (rdrop p l).dropWhile p

/-- Python `s.strip()`. -/
def pyStrip (s : String) : String :=
  ⟨dropEnds isPySpace s.data⟩

/-- The character set of Python `strip(" |")`. -/
def isPipeSpace (c : Char) : Bool :=
  c = ' ' || c = '|'

/-- Python `s.strip(" |")`: strip any mix of spaces and pipes from both ends. -/
def stripPipeSpace (s : String) : String :=
  ⟨dropEnds isPipeSpace s.data⟩

/-- Python `s.lower()` (ASCII case folding). -/
def pyLower (s : String) : String :=
  ⟨s.data.map Char.toLower⟩

/-- Accumulator pass behind `splitTokens`; `cur` holds the current token
reversed. -/
def tokensGo (p : Char → Bool) : List Char → List Char → List (List Char)
  | [], cur => if cur = [] then [] else [cur.reverse]
  | c :: cs, cur =>
    if p c then
      if cur = [] then tokensGo p cs [] else cur.reverse :: tokensGo p cs []
    else tokensGo p cs (c :: cur)

/-- Maximal runs of characters not satisfying `p` (Python `str.split()` with no
argument, which drops empty pieces). -/
def splitTokens (p : Char → Bool) (l : List Char) : List (List Char) :=
  tokensGo p l []

/-- Python `s.split()`. -/
def pySplit (s : String) : List String :=
  (splitTokens isPySpace s.data).map (fun t => ⟨t⟩)

/-- `" ".join(tokens)` at the character level. -/
def joinSp : List (List Char) → List Char
  | [] => []
  | [t] => t
  | t :: ts => t ++ ' ' :: joinSp ts

/-- `normalize_string` from the source: strip, lowercase, collapse whitespace
runs to single spaces (`" ".join(str(s).strip().lower().split())`). -/
def normalize_string (s : String) : String :=
  ⟨joinSp (splitTokens isPySpace (pyLower (pyStrip s)).data)⟩

/-- `split_name` from the source: last whitespace token is the last name, the
rest joined by single spaces is the first name; a single token is all first
name. (On a non-empty all-whitespace input the Python code would raise an
IndexError; that path is unreachable from ingestion, which only passes
stripped non-empty names, and is mapped to `("", "")` here.) -/
def split_name (full_name : String) : String × String :=
  if full_name = "" then ("", "")
  else
    match pySplit (pyStrip full_name) with
    | [] => ("", "")
    | [p] => (p, "")
    | p :: ps =>
      (String.intercalate " " ((p :: ps).dropLast), (p :: ps).getLastD "")

/-- One row of the sqlite `contacts` table. -/
structure Contact where
  full_name : String
  first_name : String
  last_name : String
  company : String
  title : String
  email : String
  linkedin_url : String
  source : String
  owner : String
deriving DecidableEq, Repr

/-- A parsed CSV: headers plus rows of cells; `none` is a missing value
(pandas NaN). -/
structure Csv where
  headers : List String
  rows : List (List (Option String))

/-- Python `str(cell)`: a missing value (NaN) prints as "nan". -/
def pyStr (c : Option String) : String :=
  c.getD "nan"

/-- Value of column `col` in a row (`row[col]` on the DataFrame). -/
def cellOf (headers : List String) (row : List (Option String)) (col : String) :
    Option String :=
  match headers.indexOf? col with
  | some i => (row.get? i).getD none
  | none => none

/-- The contact-CSV column map built by the detection loop. -/
structure ContactColMap where
  full_name : Option String := none
  first_name : Option String := none
  last_name : Option String := none
  company : Option String := none
  title : Option String := none
  email : Option String := none
  linkedin_url : Option String := none
deriving DecidableEq, Repr

/-- `col.strip().lower()` applied to a header before alias comparison. -/
def headerKey (col : String) : String :=
  pyLower (pyStrip col)

/-- The contact-CSV header detection loop (later aliases overwrite earlier
ones, as in the Python dict assignment). -/
def detectContactCols (headers : List String) : ContactColMap :=
  headers.foldl
    (fun m col =>
      let lc := headerKey col
      if lc = "full_name" || lc = "name" then { m with full_name := some col }
      else if lc = "first name" || lc = "firstname" || lc = "given name" then
        { m with first_name := some col }
      else if lc = "last name" || lc = "lastname" || lc = "surname"
          || lc = "family name" then
        { m with last_name := some col }
      else if lc = "company" || lc = "current company" || lc = "organization" then
        { m with company := some col }
      else if lc = "title" || lc = "position" || lc = "job title" then
        { m with title := some col }
      else if lc = "email" || lc = "email address" then
        { m with email := some col }
      else if lc = "url" || lc = "linkedin url" || lc = "profile url" then
        { m with linkedin_url := some col }
      else m)
    {}

/-- The validation performed before touching the database: a full-name column,
or a first-name and a last-name column. -/
def columnsResolvable (cm : ContactColMap) : Bool :=
  cm.full_name.isSome || (cm.first_name.isSome && cm.last_name.isSome)

/-- Resolved full name of one CSV row:
`str(row[full_name_col]).strip()` when a full-name column exists, otherwise
the synthesized `first.strip() + " " + last.strip()` column (NaN filled with
"" before `astype(str)`), stripped. -/
def resolvedFullName (cm : ContactColMap) (headers : List String)
    (row : List (Option String)) : String :=
  match cm.full_name with
  | some col => pyStrip (pyStr (cellOf headers row col))
  | none =>
    match cm.first_name, cm.last_name with
    | some fc, some lc =>
      pyStrip (pyStrip ((cellOf headers row fc).getD "") ++ " "
        ++ pyStrip ((cellOf headers row lc).getD ""))
    | _, _ => ""

/-- `str(row[col])` for an optional mapped column; an unmapped column yields
the empty string (note: no strip, and a NaN cell prints as "nan"). -/
def optFieldVal (headers : List String) (row : List (Option String))
    (oc : Option String) : String :=
  match oc with
  | some col => pyStr (cellOf headers row col)
  | none => ""

/-- The body of the ingestion loop for one CSV row: skip when the resolved
full name is empty, otherwise build the contact row to insert. -/
def ingestRow (cm : ContactColMap) (headers : List String)
    (owner source : String) (row : List (Option String)) : Option Contact :=
  let raw := resolvedFullName cm headers row
  if raw = "" then none
  else
    let fl := split_name raw
    some
      { full_name := raw
        first_name := fl.1
        last_name := fl.2
        company := optFieldVal headers row cm.company
        title := optFieldVal headers row cm.title
        email := optFieldVal headers row cm.email
        linkedin_url := optFieldVal headers row cm.linkedin_url
        source := source
        owner := owner }

/-- Message of the ValueError raised when the contact columns cannot be
resolved. -/
def contactSchemaMsg : String :=
  "Could not find a Name/full_name column or First Name + Last Name in the contacts CSV."

/-- `load_contacts_from_csv`: validate the columns, then delete the
(owner, source) partition and insert the rows with a non-empty resolved full
name. The validation precedes the delete, exactly as in the source, so a
schema failure returns before any mutation. -/
def load_contacts_from_csv (csv : Csv) (owner source : String)
    (store : List Contact) : Except String (List Contact) :=
  let cm := detectContactCols csv.headers
  if columnsResolvable cm then
    let kept := store.filter (fun c => !(c.owner == owner && c.source == source))
    let newRows := csv.rows.filterMap (ingestRow cm csv.headers owner source)
    .ok (kept ++ newRows)
  else
    .error contactSchemaMsg

/-- The store seen after a call: unchanged when the call raised. -/
def runLoad (csv : Csv) (owner source : String) (store : List Contact) :
    List Contact :=
  match load_contacts_from_csv csv owner source store with
  | .ok st => st
  | .error _ => store

/-- An ephemeral attendee record built from the attendee CSV. -/
structure Attendee where
  attendee_name : String
  attendee_company : String
  attendee_email : String
deriving DecidableEq, Repr

/-- One row of the returned matches table. -/
structure MatchResult where
  attendee_name : String
  attendee_company : String
  attendee_email : String
  contact_name : String
  contact_company : String
  contact_title : String
  contact_owner : String
  contact_source : String
  contact_email : String
  match_score : ℚ
deriving DecidableEq, Repr

/-- `build_contact_key` from the source: normalized name and company joined
with a pipe, then `strip(" |")`. -/
def build_contact_key (c : Contact) : String :=
  stripPipeSpace (normalize_string c.full_name ++ " | " ++ normalize_string c.company)

/-- `build_attendee_key` from the source, same shape on attendee fields. -/
def build_attendee_key (a : Attendee) : String :=
  stripPipeSpace
    (normalize_string a.attendee_name ++ " | " ++ normalize_string a.attendee_company)

/-- Inner pass of the longest-common-subsequence length: `f` is the
LCS-against function of the tail of the first string. -/
def lcsGo (x : Char) (f : List Char → ℕ) : List Char → ℕ
  | [] => 0
  | y :: ys => if x = y then f ys + 1 else max (f (y :: ys)) (lcsGo x f ys)

/-- Longest-common-subsequence length of two character lists (the basis of the
rapidfuzz Indel / `fuzz.ratio` metric: indel distance is
`len1 + len2 - 2 * lcs`). -/
def lcsLen : List Char → List Char → ℕ
  | [], _ => 0
  | x :: xs, ys => lcsGo x (lcsLen xs) ys

/-- Lexicographic comparison of character lists, the order Python and C++ use
to sort whitespace tokens. -/
def lexLe : List Char → List Char → Bool
  | [], _ => true
  | _ :: _, [] => false
  | a :: as, b :: bs => if a < b then true else if b < a then false else lexLe as bs

/-- Ordered insertion for the token sort. -/
def insertTok (t : List Char) : List (List Char) → List (List Char)
  | [] => [t]
  | u :: us => if lexLe t u then t :: u :: us else u :: insertTok t us

/-- Sort a token list ascending (Python `sorted`). -/
def sortToks : List (List Char) → List (List Char)
  | [] => []
  | t :: ts => insertTok t (sortToks ts)

/-- Token-sort preprocessing of `fuzz.token_sort_ratio`: split on whitespace,
sort the tokens, join with single spaces. -/
def tokenSortKey (s : String) : List Char :=
  List.intercalate [' '] (sortToks (splitTokens isPySpace s.data))

/-- `fuzz.token_sort_ratio` as an exact rational in 0..100:
`100 * (1 - indel_distance / (len1 + len2))` on the token-sorted strings,
i.e. `200 * lcs / (len1 + len2)`; two empty strings score 100. -/
def token_sort_score (a b : String) : ℚ :=
  let x := tokenSortKey a
  let y := tokenSortKey b
  if x.length + y.length = 0 then 100
  else (200 * (lcsLen x y : ℚ)) / ((x.length : ℚ) + (y.length : ℚ))

/-- Fold behind `extractOne`: keeps the first strictly best candidate with its
score and index. -/
def extractOneGo (q : String) :
    List String → ℕ → Option (String × ℚ × ℕ) → Option (String × ℚ × ℕ)
  | [], _, best => best
  | k :: ks, i, best =>
    let s := token_sort_score q k
    let best2 :=
      match best with
      | none => some (k, s, i)
      | some (bk, bs, bi) => if bs < s then some (k, s, i) else some (bk, bs, bi)
    extractOneGo q ks (i + 1) best2

/-- `process.extractOne(query, choices, scorer=fuzz.token_sort_ratio)`:
`none` only when the choice list is empty. -/
def extractOne (q : String) (keys : List String) : Option (String × ℚ × ℕ) :=
  extractOneGo q keys 0 none

/-- Index that the Python dict `{key: idx for idx, row in ...}` resolves a key
to: the last position carrying that key (later assignments overwrite earlier
ones). -/
def lastIdxOf? : List String → String → Option ℕ
  | [], _ => none
  | k :: ks, q =>
    match lastIdxOf? ks q with
    | some j => some (j + 1)
    | none => if k = q then some 0 else none

/-- The attendee-CSV column map built by the detection loop. -/
structure AttendeeColMap where
  name : Option String := none
  company : Option String := none
  email : Option String := none
deriving DecidableEq, Repr

/-- The attendee-CSV header detection loop. -/
def detectAttendeeCols (headers : List String) : AttendeeColMap :=
  headers.foldl
    (fun m col =>
      let lc := headerKey col
      if lc = "name" || lc = "full name" then { m with name := some col }
      else if lc = "company" || lc = "organization" || lc = "org"
          || lc = "employer" then
        { m with company := some col }
      else if lc = "email" || lc = "email address" then
        { m with email := some col }
      else m)
    {}

/-- Build one attendee record: `astype(str)` (NaN prints as "nan") then strip;
an unmapped optional column yields the empty string. -/
def mkAttendee (am : AttendeeColMap) (headers : List String) (ncol : String)
    (row : List (Option String)) : Attendee :=
  { attendee_name := pyStrip (pyStr (cellOf headers row ncol))
    attendee_company :=
      match am.company with
      | some c => pyStrip (pyStr (cellOf headers row c))
      | none => ""
    attendee_email :=
      match am.email with
      | some c => pyStrip (pyStr (cellOf headers row c))
      | none => "" }

/-- The attendee records the match call iterates over, in input-file order. -/
def attendeesOf (csv : Csv) : List Attendee :=
  let am := detectAttendeeCols csv.headers
  match am.name with
  | some ncol => csv.rows.map (mkAttendee am csv.headers ncol)
  | none => []

/-- Body of the matching loop for one attendee: skip on an empty key, take the
best-scoring contact key, skip strictly below the threshold, otherwise join
the attendee with the contact row the key dict resolves to. -/
def processAttendee (store : List Contact) (threshold : ℤ) (att : Attendee) :
    Option MatchResult :=
  let keys := store.map build_contact_key
  let qk := build_attendee_key att
  if qk = "" then none
  else
    match extractOne qk keys with
    | none => none
    | some (bestKey, score, _) =>
      if score < (threshold : ℚ) then none
      else
        match lastIdxOf? keys bestKey with
        | none => none
        | some idx =>
          match store.get? idx with
          | none => none
          | some c =>
            some
              { attendee_name := att.attendee_name
                attendee_company := att.attendee_company
                attendee_email := att.attendee_email
                contact_name := c.full_name
                contact_company := c.company
                contact_title := c.title
                contact_owner := c.owner
                contact_source := c.source
                contact_email := c.email
                match_score := score }

/-- Message of the ValueError raised when the contact store is empty. -/
def emptyStoreMsg : String :=
  "No contacts in database. Load contacts first."

/-- Message of the ValueError raised when the attendee name column is
missing. -/
def attendeeSchemaMsg : String :=
  "Could not find a name or full name column in attendee CSV."

/-- `match_attendees_from_csv`: the empty-store check comes first (before the
attendee CSV is even read), then attendee column detection, then the matching
loop in input order. -/
def match_attendees_from_csv (csv : Csv) (threshold : ℤ)
    (store : List Contact) : Except String (List MatchResult) :=
  if store.isEmpty then .error emptyStoreMsg
  else
    match (detectAttendeeCols csv.headers).name with
    | none => .error attendeeSchemaMsg
    | some _ => .ok ((attendeesOf csv).filterMap (processAttendee store threshold))

/-- Fixture: two distinct contact rows whose normalized keys collide. -/
def dupContactA : Contact :=
  ⟨"ab", "ab", "", "", "T1", "", "", "s", "o"⟩

/-- Fixture: the later of the two colliding rows. -/
def dupContactB : Contact :=
  ⟨"ab", "ab", "", "", "T2", "", "", "s", "o"⟩

/-! Auxiliary lemmas about the Python string primitives. -/

theorem dropWhile_head_not (p : Char → Bool) (l : List Char) :
    ∀ c, (l.dropWhile p).head? = some c → p c = false := by
  induction l with
  | nil => intro c h; simp [List.dropWhile] at h
  | cons a l ih =>
    intro c h
    by_cases hp : p a
    · rw [List.dropWhile_cons_of_pos hp] at h
      exact ih c h
    · rw [List.dropWhile_cons_of_neg hp] at h
      simp at h
      simpa [← h] using Bool.of_not_eq_true hp

theorem dropWhile_eq_self_of_head (p : Char → Bool) (l : List Char)
    (h : ∀ c, l.head? = some c → p c = false) : l.dropWhile p = l := by
  cases l with
  | nil => rfl
  | cons a l => exact List.dropWhile_cons_of_neg (by simp [h a rfl])

theorem dropWhile_getLast_eq (p : Char → Bool) (l : List Char)
    (h : l.dropWhile p ≠ []) : (l.dropWhile p).getLast? = l.getLast? := by
  obtain ⟨t, ht⟩ := List.dropWhile_suffix p (l := l)
  conv_rhs => rw [← ht]
  exact (List.getLast?_append_of_ne_nil t h).symm

theorem rdrop_getLast_not (p : Char → Bool) (l : List Char) :
    ∀ c, (rdrop p l).getLast? = some c → p c = false := by
  intro c h
  rw [rdrop, List.getLast?_reverse] at h
  exact dropWhile_head_not p l.reverse c h

theorem rdrop_eq_self_of_getLast (p : Char → Bool) (l : List Char)
    (h : ∀ c, l.getLast? = some c → p c = false) : rdrop p l = l := by
  rw [rdrop, dropWhile_eq_self_of_head p l.reverse
    (fun c hc => h c (by rwa [List.head?_reverse] at hc)), List.reverse_reverse]

theorem dropEnds_head_not (p : Char → Bool) (l : List Char) :
    ∀ c, (dropEnds p l).head? = some c → p c = false :=
  fun c h => dropWhile_head_not p (rdrop p l) c h

theorem dropEnds_getLast_not (p : Char → Bool) (l : List Char) :
    ∀ c, (dropEnds p l).getLast? = some c → p c = false := by
  intro c h
  rcases eq_or_ne (dropEnds p l) [] with he | he
  · rw [he] at h; simp at h
  · rw [dropEnds] at h he
    rw [dropWhile_getLast_eq p (rdrop p l) he] at h
    exact rdrop_getLast_not p l c h

theorem dropEnds_eq_self (p : Char → Bool) (l : List Char)
    (h1 : ∀ c, l.head? = some c → p c = false)
    (h2 : ∀ c, l.getLast? = some c → p c = false) : dropEnds p l = l := by
  rw [dropEnds, rdrop_eq_self_of_getLast p l h2, dropWhile_eq_self_of_head p l h1]

theorem dropEnds_idem (p : Char → Bool) (l : List Char) :
    dropEnds p (dropEnds p l) = dropEnds p l :=
  dropEnds_eq_self p _ (dropEnds_head_not p l) (dropEnds_getLast_not p l)

theorem pyStrip_idem (s : String) : pyStrip (pyStrip s) = pyStrip s := by
  simp [pyStrip, dropEnds_idem]

theorem pyStrip_head_not (s : String) :
    ∀ c, (pyStrip s).data.head? = some c → isPySpace c = false :=
  dropEnds_head_not isPySpace s.data

/-! Tokenizer lemmas: every token is non-empty and free of split characters;
the joined string starts and ends with token characters. -/

theorem tokensGo_sound (p : Char → Bool) :
    ∀ (l cur : List Char), (∀ c ∈ cur, p c = false) →
      ∀ t ∈ tokensGo p l cur, t ≠ [] ∧ ∀ c ∈ t, p c = false := by
  intro l
  induction l with
  | nil =>
    intro cur hcur t ht
    rw [tokensGo] at ht
    split at ht
    · simp at ht
    · rename_i hne
      simp at ht
      subst ht
      refine ⟨by simpa using hne, ?_⟩
      intro c hc
      exact hcur c (by simpa using hc)
  | cons a l ih =>
    intro cur hcur t ht
    rw [tokensGo] at ht
    split at ht
    · split at ht
      · exact ih [] (by simp) t ht
      · rename_i hne
        rcases List.mem_cons.mp ht with h | h
        · subst h
          refine ⟨by simpa using hne, ?_⟩
          intro c hc
          exact hcur c (by simpa using hc)
        · exact ih [] (by simp) t h
    · rename_i hpa
      refine ih (a :: cur) ?_ t ht
      intro c hc
      rcases List.mem_cons.mp hc with h | h
      · subst h; exact Bool.of_not_eq_true hpa
      · exact hcur c h

theorem splitTokens_sound (p : Char → Bool) (l : List Char) :
    ∀ t ∈ splitTokens p l, t ≠ [] ∧ ∀ c ∈ t, p c = false :=
  tokensGo_sound p l [] (by simp)

theorem joinSp_ne_nil (t : List Char) (ts : List (List Char)) (h : t ≠ []) :
    joinSp (t :: ts) ≠ [] := by
  cases ts with
  | nil => simpa [joinSp] using h
  | cons u us => simp [joinSp, h]

theorem joinSp_head_not (p : Char → Bool) :
    ∀ ts : List (List Char), (∀ t ∈ ts, t ≠ [] ∧ ∀ c ∈ t, p c = false) →
      ∀ c, (joinSp ts).head? = some c → p c = false := by
  intro ts
  match ts with
  | [] => intro _ c h; simp [joinSp] at h
  | [t] =>
    intro hts c h
    rw [joinSp] at h
    exact (hts t (by simp)).2 c (List.mem_of_mem_head? (by rw [h]; simp))
  | t :: u :: us =>
    intro hts c h
    have hj : joinSp (t :: u :: us) = t ++ ' ' :: joinSp (u :: us) := rfl
    rw [hj, List.head?_append_of_ne_nil t (hts t (by simp)).1] at h
    exact (hts t (by simp)).2 c (List.mem_of_mem_head? (by rw [h]; simp))

theorem joinSp_getLast_not (p : Char → Bool) :
    ∀ ts : List (List Char), (∀ t ∈ ts, t ≠ [] ∧ ∀ c ∈ t, p c = false) →
      ∀ c, (joinSp ts).getLast? = some c → p c = false := by
  intro ts
  induction ts with
  | nil => intro _ c h; simp [joinSp] at h
  | cons t us ih =>
    intro hts c h
    match us with
    | [] =>
      rw [joinSp] at h
      exact (hts t (by simp)).2 c (List.mem_of_getLast?_eq_some h)
    | u :: us' =>
      have hj : joinSp (t :: u :: us') = t ++ ' ' :: joinSp (u :: us') := rfl
      rw [hj] at h
      have hne : joinSp (u :: us') ≠ [] := joinSp_ne_nil u us' (hts u (by simp)).1
      rw [List.getLast?_append_of_ne_nil t (by simp)] at h
      cases hg : (joinSp (u :: us')).getLast? with
      | none => exact absurd (List.getLast?_eq_none_iff.mp hg) hne
      | some x =>
        have hx : x = c := by
          rw [List.getLast?_cons, hg] at h
          simpa using h
        subst hx
        exact ih (fun y hy => hts y (by simp [hy])) x hg

theorem normalize_head_not_space (s : String) :
    ∀ c, (normalize_string s).data.head? = some c → isPySpace c = false := by
  intro c h
  rw [normalize_string] at h
  exact joinSp_head_not isPySpace _ (splitTokens_sound isPySpace _) c h

theorem normalize_getLast_not_space (s : String) :
    ∀ c, (normalize_string s).data.getLast? = some c → isPySpace c = false := by
  intro c h
  rw [normalize_string] at h
  exact joinSp_getLast_not isPySpace _ (splitTokens_sound isPySpace _) c h

/-! Lemmas about `strip(" |")` on the assembled key. -/

theorem stripPipeSpace_eq_dropEnds (s : String) :
    stripPipeSpace s = ⟨dropEnds isPipeSpace s.data⟩ := rfl

theorem dropWhile_sep_append (r : List Char) :
    List.dropWhile isPipeSpace ([' ', '|', ' '] ++ r) = List.dropWhile isPipeSpace r := by
  simp [List.dropWhile_cons, isPipeSpace]

theorem sep_data : (" | " : String).data = [' ', '|', ' '] := rfl

/-- A character at an end of a normalized string blocks all stripping exactly
when it is not a pipe (it is never a space). -/
theorem not_pipeSpace_of_norm_head (s : String) (c : Char)
    (h : (normalize_string s).data.head? = some c) (hp : c ≠ '|') :
    isPipeSpace c = false := by
  have hs := normalize_head_not_space s c h
  have : c ≠ ' ' := by
    intro he; subst he; simp [isPySpace] at hs
  simp [isPipeSpace, this, hp]

theorem not_pipeSpace_of_norm_getLast (s : String) (c : Char)
    (h : (normalize_string s).data.getLast? = some c) (hp : c ≠ '|') :
    isPipeSpace c = false := by
  have hs := normalize_getLast_not_space s c h
  have : c ≠ ' ' := by
    intro he; subst he; simp [isPySpace] at hs
  simp [isPipeSpace, this, hp]

theorem dropEnds_mid_sep (n c : List Char) (hn : n ≠ []) (hc : c ≠ [])
    (h1 : ∀ ch, n.head? = some ch → isPipeSpace ch = false)
    (h2 : ∀ ch, c.getLast? = some ch → isPipeSpace ch = false) :
    dropEnds isPipeSpace (n ++ [' ', '|', ' '] ++ c) = n ++ [' ', '|', ' '] ++ c := by
  refine dropEnds_eq_self _ _ ?_ ?_
  · intro ch hch
    rw [List.append_assoc, List.head?_append_of_ne_nil n hn] at hch
    exact h1 ch hch
  · intro ch hch
    rw [List.getLast?_append_of_ne_nil _ hc] at hch
    exact h2 ch hch

theorem dropEnds_right_sep (n : List Char)
    (h1 : ∀ ch, n.head? = some ch → isPipeSpace ch = false)
    (h2 : ∀ ch, n.getLast? = some ch → isPipeSpace ch = false) :
    dropEnds isPipeSpace (n ++ [' ', '|', ' ']) = n := by
  have hrev : (n ++ [' ', '|', ' ']).reverse = [' ', '|', ' '] ++ n.reverse := by
    simp
  have e1 : List.dropWhile isPipeSpace n.reverse = n.reverse :=
    dropWhile_eq_self_of_head _ _
      (fun ch hch => h2 ch (by rwa [List.head?_reverse] at hch))
  rw [dropEnds, rdrop, hrev, dropWhile_sep_append, e1, List.reverse_reverse,
    dropWhile_eq_self_of_head _ _ h1]

theorem dropEnds_left_sep (c : List Char) (hc : c ≠ [])
    (h1 : ∀ ch, c.head? = some ch → isPipeSpace ch = false)
    (h2 : ∀ ch, c.getLast? = some ch → isPipeSpace ch = false) :
    dropEnds isPipeSpace ([' ', '|', ' '] ++ c) = c := by
  have hrev : ([' ', '|', ' '] ++ c).reverse = c.reverse ++ [' ', '|', ' '] := by
    simp
  have e1 : List.dropWhile isPipeSpace (c.reverse ++ [' ', '|', ' '])
      = c.reverse ++ [' ', '|', ' '] := by
    refine dropWhile_eq_self_of_head _ _ ?_
    intro ch hch
    rw [List.head?_append_of_ne_nil c.reverse (by simpa using hc),
      List.head?_reverse] at hch
    exact h2 ch hch
  have e2 : (c.reverse ++ [' ', '|', ' ']).reverse = [' ', '|', ' '] ++ c := by
    simp
  rw [dropEnds, rdrop, hrev, e1, e2, dropWhile_sep_append,
    dropWhile_eq_self_of_head _ _ h1]

/-! Bounds on the similarity score. -/

theorem lcsGo_le (x : Char) (f : List Char → ℕ) (n : ℕ) (hf : ∀ zs, f zs ≤ n) :
    ∀ ys, lcsGo x f ys ≤ n + 1 := by
  intro ys
  induction ys with
  | nil => simp [lcsGo]
  | cons y ys ih =>
    rw [lcsGo]
    split
    · exact Nat.succ_le_succ (hf ys)
    · exact max_le (le_trans (hf _) (Nat.le_succ n)) ih

theorem lcsLen_le_left : ∀ xs ys : List Char, lcsLen xs ys ≤ xs.length := by
  intro xs
  induction xs with
  | nil => intro ys; simp [lcsLen]
  | cons x xs ih => intro ys; exact lcsGo_le x (lcsLen xs) xs.length ih ys

theorem lcsGo_le_right (x : Char) (f : List Char → ℕ)
    (hf : ∀ zs, f zs ≤ zs.length) : ∀ ys, lcsGo x f ys ≤ ys.length := by
  intro ys
  induction ys with
  | nil => simp [lcsGo]
  | cons y ys ih =>
    rw [lcsGo]
    split
    · exact Nat.succ_le_succ (hf ys)
    · exact max_le (hf (y :: ys)) (le_trans ih (Nat.le_succ _))

theorem lcsLen_le_right : ∀ xs ys : List Char, lcsLen xs ys ≤ ys.length := by
  intro xs
  induction xs with
  | nil => intro ys; simp [lcsLen]
  | cons x xs ih => intro ys; exact lcsGo_le_right x (lcsLen xs) ih ys

theorem token_sort_score_nonneg (a b : String) : 0 ≤ token_sort_score a b := by
  rw [token_sort_score]
  split
  · norm_num
  · positivity

theorem token_sort_score_le_100 (a b : String) : token_sort_score a b ≤ 100 := by
  rw [token_sort_score]
  split
  · norm_num
  · rename_i hne
    set x := tokenSortKey a
    set y := tokenSortKey b
    have hpos : (0 : ℚ) < (x.length : ℚ) + (y.length : ℚ) := by
      have : 0 < x.length + y.length := Nat.pos_of_ne_zero hne
      exact_mod_cast this
    rw [div_le_iff₀ hpos]
    have h1 : lcsLen x y ≤ x.length := lcsLen_le_left x y
    have h2 : lcsLen x y ≤ y.length := lcsLen_le_right x y
    have : (lcsLen x y : ℚ) ≤ (x.length : ℚ) := by exact_mod_cast h1
    have : (lcsLen x y : ℚ) ≤ (y.length : ℚ) := by exact_mod_cast h2
    nlinarith

/-! Properties of `extractOne`. -/

theorem extractOneGo_nil (q : String) (i : ℕ) (acc : Option (String × ℚ × ℕ)) :
    extractOneGo q [] i acc = acc := rfl

theorem extractOneGo_cons (q x : String) (l : List String) (i : ℕ)
    (acc : Option (String × ℚ × ℕ)) :
    extractOneGo q (x :: l) i acc =
      extractOneGo q l (i + 1)
        (match acc with
          | none => some (x, token_sort_score q x, i)
          | some (bk, bs, bi) =>
            if bs < token_sort_score q x then some (x, token_sort_score q x, i)
            else some (bk, bs, bi)) := rfl

theorem extractOneGo_ne_none (q : String) :
    ∀ (l : List String) (i : ℕ) (acc : Option (String × ℚ × ℕ)),
      acc ≠ none → extractOneGo q l i acc ≠ none := by
  intro l
  induction l with
  | nil => intro i acc h; simpa [extractOneGo_nil] using h
  | cons x l ih =>
    intro i acc h
    rw [extractOneGo_cons]
    apply ih
    match acc with
    | none => simp
    | some (bk, bs, bi) => dsimp only; split <;> simp

theorem extractOne_ne_none (q k : String) (ks : List String) :
    extractOne q (k :: ks) ≠ none := by
  rw [extractOne, extractOneGo_cons]
  exact extractOneGo_ne_none q ks 1 _ (by simp)

theorem extractOneGo_inv (q : String) :
    ∀ (l : List String) (i : ℕ) (acc : Option (String × ℚ × ℕ))
      (k : String) (s : ℚ) (j : ℕ),
      extractOneGo q l i acc = some (k, s, j) →
      acc = some (k, s, j) ∨ (k ∈ l ∧ s = token_sort_score q k) := by
  intro l
  induction l with
  | nil =>
    intro i acc k s j h
    rw [extractOneGo_nil] at h
    exact Or.inl h
  | cons x l ih =>
    intro i acc k s j h
    rw [extractOneGo_cons] at h
    rcases ih (i + 1) _ k s j h with h2 | h2
    · match acc with
      | none =>
        simp only at h2
        obtain ⟨rfl, rfl, rfl⟩ := by simpa using h2
        exact Or.inr ⟨by simp, rfl⟩
      | some (bk, bs, bi) =>
        simp only at h2
        split at h2
        · obtain ⟨rfl, rfl, rfl⟩ := by simpa using h2
          exact Or.inr ⟨by simp, rfl⟩
        · exact Or.inl h2
    · exact Or.inr ⟨List.mem_cons_of_mem x h2.1, h2.2⟩

theorem extractOne_inv (q : String) (keys : List String) (k : String) (s : ℚ)
    (j : ℕ) (h : extractOne q keys = some (k, s, j)) :
    k ∈ keys ∧ s = token_sort_score q k := by
  rcases extractOneGo_inv q keys 0 none k s j h with h2 | h2
  · simp at h2
  · exact h2

theorem extractOneGo_max (q : String) :
    ∀ (l : List String) (i : ℕ) (acc : Option (String × ℚ × ℕ))
      (k : String) (s : ℚ) (j : ℕ),
      extractOneGo q l i acc = some (k, s, j) →
      (∀ bk bs bj, acc = some (bk, bs, bj) → bs ≤ s)
      ∧ (∀ x ∈ l, token_sort_score q x ≤ s) := by
  intro l
  induction l with
  | nil =>
    intro i acc k s j h
    rw [extractOneGo_nil] at h
    refine ⟨?_, by simp⟩
    intro bk bs bj hacc
    rw [hacc] at h
    obtain ⟨rfl, rfl, rfl⟩ := by simpa using h
    exact le_refl _
  | cons x l ih =>
    intro i acc k s j h
    rw [extractOneGo_cons] at h
    have hx : token_sort_score q x ≤ s := by
      match acc with
      | none =>
        exact (ih (i + 1) _ k s j h).1 x (token_sort_score q x) i rfl
      | some (bk, bs, bi) =>
        simp only at h
        by_cases hlt : bs < token_sort_score q x
        · rw [if_pos hlt] at h
          exact (ih (i + 1) _ k s j h).1 x (token_sort_score q x) i rfl
        · rw [if_neg hlt] at h
          exact le_trans (le_of_not_lt hlt) ((ih (i + 1) _ k s j h).1 bk bs bi rfl)
    refine ⟨?_, ?_⟩
    · intro bk bs bj hacc
      subst hacc
      simp only at h
      by_cases hlt : bs < token_sort_score q x
      · rw [if_pos hlt] at h
        exact le_trans (le_of_lt hlt) hx
      · rw [if_neg hlt] at h
        exact (ih (i + 1) _ k s j h).1 bk bs bj rfl
    · intro y hy
      rcases List.mem_cons.mp hy with rfl | hy
      · exact hx
      · match acc with
        | none => exact (ih (i + 1) _ k s j h).2 y hy
        | some (bk, bs, bi) =>
          simp only at h
          split at h
          · exact (ih (i + 1) _ k s j h).2 y hy
          · exact (ih (i + 1) _ k s j h).2 y hy

theorem extractOne_max (q : String) (keys : List String) (k : String) (s : ℚ)
    (j : ℕ) (h : extractOne q keys = some (k, s, j)) :
    ∀ x ∈ keys, token_sort_score q x ≤ s :=
  (extractOneGo_max q keys 0 none k s j h).2

/-! Properties of the key-to-row index (the Python dict join). -/

theorem lastIdxOf?_nil (q : String) : lastIdxOf? [] q = none := rfl

theorem lastIdxOf?_cons (k : String) (ks : List String) (q : String) :
    lastIdxOf? (k :: ks) q =
      (match lastIdxOf? ks q with
        | some j => some (j + 1)
        | none => if k = q then some 0 else none) := rfl

theorem lastIdxOf?_eq_none (l : List String) (q : String)
    (h : lastIdxOf? l q = none) : q ∉ l := by
  induction l with
  | nil => simp
  | cons k ks ih =>
    rw [lastIdxOf?_cons] at h
    cases hks : lastIdxOf? ks q with
    | some j => rw [hks] at h; simp at h
    | none =>
      rw [hks] at h
      by_cases hkq : k = q
      · rw [if_pos hkq] at h; simp at h
      · rw [if_neg hkq] at h
        simp only [List.mem_cons, not_or]
        exact ⟨fun he => hkq he.symm, ih hks⟩

theorem lastIdxOf?_spec (l : List String) (q : String) (j : ℕ)
    (h : lastIdxOf? l q = some j) :
    l.get? j = some q ∧ ∀ i, j < i → l.get? i ≠ some q := by
  induction l generalizing j with
  | nil => simp [lastIdxOf?_nil] at h
  | cons k ks ih =>
    rw [lastIdxOf?_cons] at h
    cases hks : lastIdxOf? ks q with
    | some j' =>
      rw [hks] at h
      obtain rfl : j' + 1 = j := by simpa using h
      obtain ⟨h1, h2⟩ := ih j' hks
      refine ⟨by simpa using h1, ?_⟩
      intro i hi
      cases i with
      | zero => omega
      | succ i' =>
        have hji : j' < i' := by omega
        simpa using h2 i' hji
    | none =>
      rw [hks] at h
      by_cases hkq : k = q
      · subst hkq
        rw [if_pos rfl] at h
        obtain rfl : 0 = j := by simpa using h
        refine ⟨by simp, ?_⟩
        intro i hi
        cases i with
        | zero => omega
        | succ i' =>
          have hnm := lastIdxOf?_eq_none ks k hks
          simp only [List.get?_cons_succ]
          intro hc
          exact hnm (List.get?_mem hc)
      · rw [if_neg hkq] at h
        simp at h

theorem lastIdxOf?_isSome_of_mem (l : List String) (q : String) (h : q ∈ l) :
    (lastIdxOf? l q).isSome := by
  cases hl : lastIdxOf? l q with
  | none => exact absurd h (lastIdxOf?_eq_none l q hl)
  | some j => simp

/-! Inversion lemmas for ingestion. -/

theorem ingestRow_isSome_iff (cm : ContactColMap) (headers : List String)
    (owner source : String) (row : List (Option String)) :
    (ingestRow cm headers owner source row).isSome
      ↔ resolvedFullName cm headers row ≠ "" := by
  rw [ingestRow]
  by_cases hr : resolvedFullName cm headers row = ""
  · simp [hr]
  · simp [hr]

theorem ingestRow_fields (cm : ContactColMap) (headers : List String)
    (owner source : String) (row : List (Option String)) (c : Contact)
    (h : ingestRow cm headers owner source row = some c) :
    c.owner = owner ∧ c.source = source
      ∧ c.full_name = resolvedFullName cm headers row ∧ c.full_name ≠ ""
      ∧ c.first_name = (split_name c.full_name).1
      ∧ c.last_name = (split_name c.full_name).2 := by
  rw [ingestRow] at h
  by_cases hr : resolvedFullName cm headers row = ""
  · simp [hr] at h
  · rw [if_neg hr] at h
    obtain rfl := Option.some.inj h
    exact ⟨rfl, rfl, rfl, hr, rfl, rfl⟩

theorem load_ok_inv (csv : Csv) (owner source : String) (store st : List Contact)
    (h : load_contacts_from_csv csv owner source store = .ok st) :
    columnsResolvable (detectContactCols csv.headers) = true
      ∧ st = store.filter (fun c => !(c.owner == owner && c.source == source))
          ++ csv.rows.filterMap
              (ingestRow (detectContactCols csv.headers) csv.headers owner source) := by
  rw [load_contacts_from_csv] at h
  by_cases hc : columnsResolvable (detectContactCols csv.headers)
  · rw [if_pos hc] at h
    exact ⟨hc, (Except.ok.inj h).symm⟩
  · simp [hc] at h

theorem load_error_of_unresolvable (csv : Csv) (owner source : String)
    (store : List Contact)
    (h : columnsResolvable (detectContactCols csv.headers) = false) :
    load_contacts_from_csv csv owner source store = .error contactSchemaMsg := by
  rw [load_contacts_from_csv, if_neg (by simp [h])]

/-! Inversion and emission lemmas for the matching loop. -/

theorem get?_map_key (store : List Contact) (j : ℕ) (k : String)
    (h : (store.map build_contact_key).get? j = some k) :
    ∃ c, store.get? j = some c ∧ build_contact_key c = k := by
  rw [List.get?_eq_getElem?, List.getElem?_map] at h
  cases hc : store[j]? with
  | none => rw [hc] at h; simp at h
  | some c =>
    rw [hc] at h
    refine ⟨c, ?_, by simpa using h⟩
    rw [List.get?_eq_getElem?, hc]

theorem processAttendee_some_inv (store : List Contact) (t : ℤ) (att : Attendee)
    (r : MatchResult) (h : processAttendee store t att = some r) :
    build_attendee_key att ≠ "" ∧
    ∃ k s i j c,
      extractOne (build_attendee_key att) (store.map build_contact_key)
          = some (k, s, i)
        ∧ ¬ s < (t : ℚ)
        ∧ lastIdxOf? (store.map build_contact_key) k = some j
        ∧ store.get? j = some c
        ∧ r = { attendee_name := att.attendee_name
                attendee_company := att.attendee_company
                attendee_email := att.attendee_email
                contact_name := c.full_name
                contact_company := c.company
                contact_title := c.title
                contact_owner := c.owner
                contact_source := c.source
                contact_email := c.email
                match_score := s } := by
  simp only [processAttendee] at h
  split at h
  · simp at h
  · rename_i hqk
    split at h
    · simp at h
    · rename_i bm bestKey score bi hbm
      split at h
      · simp at h
      · rename_i hscore
        split at h
        · simp at h
        · rename_i idx hidx
          split at h
          · simp at h
          · rename_i c hc
            obtain rfl := Option.some.inj h
            exact ⟨hqk, bestKey, score, bi, idx, c, hbm, hscore, hidx, hc, rfl⟩

theorem processAttendee_emit (store : List Contact) (t : ℤ) (att : Attendee)
    (k : String) (s : ℚ) (i : ℕ)
    (hk : build_attendee_key att ≠ "")
    (hb : extractOne (build_attendee_key att) (store.map build_contact_key)
        = some (k, s, i))
    (hs : ¬ s < (t : ℚ)) :
    ∃ r, processAttendee store t att = some r ∧ r.match_score = s := by
  have hmem : k ∈ store.map build_contact_key := (extractOne_inv _ _ _ _ _ hb).1
  obtain ⟨j, hj⟩ :=
    Option.isSome_iff_exists.mp (lastIdxOf?_isSome_of_mem _ _ hmem)
  obtain ⟨hget, _⟩ := lastIdxOf?_spec _ _ _ hj
  obtain ⟨c, hc, _⟩ := get?_map_key store j k hget
  refine ⟨{ attendee_name := att.attendee_name
            attendee_company := att.attendee_company
            attendee_email := att.attendee_email
            contact_name := c.full_name
            contact_company := c.company
            contact_title := c.title
            contact_owner := c.owner
            contact_source := c.source
            contact_email := c.email
            match_score := s }, ?_, rfl⟩
  simp only [processAttendee]
  rw [if_neg hk, hb]
  simp only
  rw [if_neg hs, hj]
  simp only
  rw [hc]

theorem processAttendee_none_of_low (store : List Contact) (t : ℤ)
    (att : Attendee) (k : String) (s : ℚ) (i : ℕ)
    (hb : extractOne (build_attendee_key att) (store.map build_contact_key)
        = some (k, s, i))
    (hs : s < (t : ℚ)) :
    processAttendee store t att = none := by
  simp only [processAttendee]
  by_cases hqk : build_attendee_key att = ""
  · rw [if_pos hqk]
  · rw [if_neg hqk, hb]
    simp only
    rw [if_pos hs]

theorem match_ok_inv (csv : Csv) (t : ℤ) (store : List Contact)
    (rows : List MatchResult)
    (h : match_attendees_from_csv csv t store = .ok rows) :
    store ≠ [] ∧ (detectAttendeeCols csv.headers).name.isSome
      ∧ rows = (attendeesOf csv).filterMap (processAttendee store t) := by
  rw [match_attendees_from_csv] at h
  by_cases hs : store.isEmpty
  · rw [if_pos hs] at h
    simp at h
  · rw [if_neg hs] at h
    split at h
    · simp at h
    · rename_i ncol hname
      refine ⟨by simpa [List.isEmpty_iff] using hs, by simp [hname], ?_⟩
      exact (Except.ok.inj h).symm

/-- An order-preservation helper: mapping a `filterMap` image back onto the
source list is a sublist of the mapped source. -/
theorem filterMap_map_sublist {α β γ : Type} (l : List α) (f : α → Option β)
    (g : β → γ) (h : α → γ) (hfg : ∀ a b, f a = some b → g b = h a) :
    ((l.filterMap f).map g).Sublist (l.map h) := by
  induction l with
  | nil => simp
  | cons a l ih =>
    cases hfa : f a with
    | none =>
      rw [List.filterMap_cons_none hfa, List.map_cons]
      exact (ih).cons _
    | some b =>
      rw [List.filterMap_cons_some hfa, List.map_cons, List.map_cons,
        hfg a b hfa]
      exact (ih).cons₂ _

/-! Support for the name splitter. -/

theorem tokensGo_ne_nil_of_cur (p : Char → Bool) :
    ∀ (l cur : List Char), cur ≠ [] → tokensGo p l cur ≠ [] := by
  intro l
  induction l with
  | nil =>
    intro cur h
    rw [tokensGo, if_neg h]
    simp
  | cons a l ih =>
    intro cur h
    rw [tokensGo]
    by_cases hp : p a
    · rw [if_pos hp, if_neg h]
      simp
    · rw [if_neg hp]
      exact ih (a :: cur) (by simp)

theorem splitTokens_ne_nil (p : Char → Bool) (c : Char) (cs : List Char)
    (h : p c = false) : splitTokens p (c :: cs) ≠ [] := by
  rw [splitTokens, tokensGo, if_neg (by simp [h])]
  exact tokensGo_ne_nil_of_cur p cs [c] (by simp)

theorem pySplit_ne_nil (s : String) (hs : s ≠ "")
    (hh : ∀ c, s.data.head? = some c → isPySpace c = false) :
    pySplit s ≠ [] := by
  cases hd : s.data with
  | nil => exact absurd (String.ext (by rw [hd])) hs
  | cons c cs =>
    rw [pySplit, hd]
    have := splitTokens_ne_nil isPySpace c cs (hh c (by rw [hd]; rfl))
    simpa using this

/-- The resolved full name is always the output of a Python `strip`, unless it
is empty. -/
theorem resolvedFullName_strip (cm : ContactColMap) (headers : List String)
    (row : List (Option String))
    (h : resolvedFullName cm headers row ≠ "") :
    ∃ y, resolvedFullName cm headers row = pyStrip y := by
  obtain ⟨fn, f1, l1, co, ti, em, lu⟩ := cm
  cases fn with
  | some col => exact ⟨_, rfl⟩
  | none =>
    cases f1 with
    | none => exact absurd rfl h
    | some fc =>
      cases l1 with
      | none => exact absurd rfl h
      | some lc => exact ⟨_, rfl⟩

theorem pyStrip_of_strip_ne_empty (y : String) (h : pyStrip y ≠ "") :
    pyStrip (pyStrip y) = pyStrip y ∧ pySplit (pyStrip y) ≠ [] := by
  refine ⟨pyStrip_idem y, ?_⟩
  exact pySplit_ne_nil (pyStrip y) h (pyStrip_head_not y)

theorem split_name_single (s : String) (hs : s ≠ "") (a : String)
    (h : pySplit (pyStrip s) = [a]) : split_name s = (a, "") := by
  rw [split_name, if_neg hs, h]

theorem split_name_multi (s : String) (hs : s ≠ "") (a b : String)
    (rest : List String) (h : pySplit (pyStrip s) = a :: b :: rest) :
    split_name s =
      (String.intercalate " " ((a :: b :: rest).dropLast),
        (a :: b :: rest).getLastD "") := by
  rw [split_name, if_neg hs, h]

/-! The claims. -/

/-- C1: when the contact-CSV columns cannot be resolved (no full-name alias
and no first+last alias pair), `load_contacts_from_csv` raises the schema
error before any deletion, so the store — in particular the (owner, source)
partition — is exactly what it was before the call. -/
theorem C1_schema_failure_preserves_store (csv : Csv) (owner source : String)
    (store : List Contact)
    (h : columnsResolvable (detectContactCols csv.headers) = false) :
    load_contacts_from_csv csv owner source store = .error contactSchemaMsg
      ∧ runLoad csv owner source store = store
      ∧ (runLoad csv owner source store).filter
            (fun c => c.owner == owner && c.source == source)
          = store.filter (fun c => c.owner == owner && c.source == source) := by
  have he := load_error_of_unresolvable csv owner source store h
  refine ⟨he, ?_, ?_⟩ <;> rw [runLoad, he]

/-- C1 witness: a CSV with only a Company column fails schema resolution and
leaves a one-row store untouched. -/
theorem C1_witness :
    load_contacts_from_csv ⟨["Company"], [[some "x"]]⟩ "o" "s"
        [⟨"Jane", "Jane", "", "", "", "", "", "s", "o"⟩]
      = .error contactSchemaMsg
    ∧ runLoad ⟨["Company"], [[some "x"]]⟩ "o" "s"
        [⟨"Jane", "Jane", "", "", "", "", "", "s", "o"⟩]
      = [⟨"Jane", "Jane", "", "", "", "", "", "s", "o"⟩] := by
  have h := C1_schema_failure_preserves_store ⟨["Company"], [[some "x"]]⟩ "o" "s"
    [⟨"Jane", "Jane", "", "", "", "", "", "s", "o"⟩] (by decide)
  exact ⟨h.1, h.2.1⟩

/-- C2: a successful load replaces exactly the (owner, source) partition with
the ingested rows of the CSV (those with a non-empty resolved full name) and
leaves every other (owner, source) partition unchanged. -/
theorem C2_partition_replacement (csv : Csv) (owner source : String)
    (store st : List Contact)
    (h : load_contacts_from_csv csv owner source store = .ok st) :
    st.filter (fun c => c.owner == owner && c.source == source)
        = csv.rows.filterMap
            (ingestRow (detectContactCols csv.headers) csv.headers owner source)
      ∧ ∀ owner2 source2 : String, ¬(owner2 = owner ∧ source2 = source) →
          st.filter (fun c => c.owner == owner2 && c.source == source2)
            = store.filter (fun c => c.owner == owner2 && c.source == source2) := by
  obtain ⟨-, hst⟩ := load_ok_inv csv owner source store st h
  subst hst
  constructor
  · rw [List.filter_append]
    have h1 : (store.filter fun c => !(c.owner == owner && c.source == source)).filter
        (fun c => c.owner == owner && c.source == source) = [] := by
      rw [List.filter_filter]
      apply List.filter_eq_nil_iff.mpr
      intro c _
      cases hco : (c.owner == owner && c.source == source) <;> simp [hco]
    have h2 : (csv.rows.filterMap
          (ingestRow (detectContactCols csv.headers) csv.headers owner source)).filter
        (fun c => c.owner == owner && c.source == source)
        = csv.rows.filterMap
            (ingestRow (detectContactCols csv.headers) csv.headers owner source) := by
      apply List.filter_eq_self.mpr
      intro c hc
      obtain ⟨row, -, hrow⟩ := List.mem_filterMap.mp hc
      obtain ⟨ho, hs, -⟩ := ingestRow_fields _ _ _ _ _ _ hrow
      simp [ho, hs]
    rw [h1, h2, List.nil_append]
  · intro o2 s2 hne
    rw [List.filter_append]
    have h3 : (csv.rows.filterMap
          (ingestRow (detectContactCols csv.headers) csv.headers owner source)).filter
        (fun c => c.owner == o2 && c.source == s2) = [] := by
      apply List.filter_eq_nil_iff.mpr
      intro c hc
      obtain ⟨row, -, hrow⟩ := List.mem_filterMap.mp hc
      obtain ⟨ho, hs, -⟩ := ingestRow_fields _ _ _ _ _ _ hrow
      simp only [ho, hs, Bool.and_eq_true, beq_iff_eq, not_and]
      intro h1 h2
      exact absurd ⟨h1.symm, h2.symm⟩ hne
    have h4 : (store.filter fun c => !(c.owner == owner && c.source == source)).filter
        (fun c => c.owner == o2 && c.source == s2)
        = store.filter (fun c => c.owner == o2 && c.source == s2) := by
      rw [List.filter_filter]
      apply List.filter_congr
      intro c _
      by_cases hp2 : (c.owner == o2 && c.source == s2) = true
      · have hp : (c.owner == owner && c.source == source) = false := by
          obtain ⟨ho2, hs2⟩ := by simpa using hp2
          by_contra hcon
          obtain ⟨ho, hs⟩ := by
            simpa using Bool.of_not_eq_false hcon
          exact hne ⟨ho2 ▸ ho ▸ rfl, hs2 ▸ hs ▸ rfl⟩
        simp [hp2, hp]
      · have hp2f : (c.owner == o2 && c.source == s2) = false :=
          Bool.eq_false_iff.mpr hp2
        simp [hp2f]
    rw [h3, h4, List.append_nil]

/-- C2 witness: loading a one-good-one-blank CSV for (o, s) replaces the old
(o, s) row and leaves the (o, s2) row alone. -/
theorem C2_witness :
    ([(⟨"Keep", "Keep", "", "", "", "", "", "s2", "o"⟩ : Contact),
      ⟨"Jane Doe", "Jane", "Doe", "", "", "", "", "s", "o"⟩].filter
        (fun c => c.owner == "o" && c.source == "s"))
      = [⟨"Jane Doe", "Jane", "Doe", "", "", "", "", "s", "o"⟩]
    ∧ ([(⟨"Keep", "Keep", "", "", "", "", "", "s2", "o"⟩ : Contact),
        ⟨"Jane Doe", "Jane", "Doe", "", "", "", "", "s", "o"⟩].filter
          (fun c => c.owner == "o" && c.source == "s2"))
      = [⟨"Keep", "Keep", "", "", "", "", "", "s2", "o"⟩] := by
  have h := C2_partition_replacement ⟨["Name"], [[some "Jane Doe"], [some " "]]⟩
    "o" "s"
    [⟨"Old", "Old", "", "", "", "", "", "s", "o"⟩,
     ⟨"Keep", "Keep", "", "", "", "", "", "s2", "o"⟩]
    [⟨"Keep", "Keep", "", "", "", "", "", "s2", "o"⟩,
     ⟨"Jane Doe", "Jane", "Doe", "", "", "", "", "s", "o"⟩]
    (by rfl)
  refine ⟨h.1.trans (by decide), ?_⟩
  exact (h.2 "o" "s2" (by simp)).trans (by decide)

/-- C7: a CSV row is ingested exactly when its resolved full name is non-empty
after trimming, and consequently a store whose rows all have non-empty
full names keeps that invariant across any successful load. -/
theorem C7_nonempty_full_names (csv : Csv) (owner source : String)
    (store st : List Contact)
    (h : load_contacts_from_csv csv owner source store = .ok st) :
    (∀ row ∈ csv.rows,
        (ingestRow (detectContactCols csv.headers) csv.headers owner source row).isSome
          ↔ resolvedFullName (detectContactCols csv.headers) csv.headers row ≠ "")
      ∧ ((∀ c ∈ store, c.full_name ≠ "") → ∀ c ∈ st, c.full_name ≠ "") := by
  obtain ⟨-, hst⟩ := load_ok_inv csv owner source store st h
  subst hst
  refine ⟨fun row _ => ingestRow_isSome_iff _ _ _ _ _, ?_⟩
  intro hstore c hc
  rcases List.mem_append.mp hc with hk | hn
  · exact hstore c (List.mem_of_mem_filter hk)
  · obtain ⟨row, -, hrow⟩ := List.mem_filterMap.mp hn
    exact (ingestRow_fields _ _ _ _ _ _ hrow).2.2.2.1

/-- C7 witness: a load over a CSV with one good row and one all-blank name row
ingests only the good row, and the resulting store has no empty full name. -/
theorem C7_witness :
    ((ingestRow (detectContactCols ["Name"]) ["Name"] "o" "s" [some "Jane"]).isSome
      ↔ resolvedFullName (detectContactCols ["Name"]) ["Name"] [some "Jane"] ≠ "")
    ∧ ∀ c ∈ [(⟨"Jane", "Jane", "", "", "", "", "", "s", "o"⟩ : Contact)],
        c.full_name ≠ "" := by
  have h := C7_nonempty_full_names ⟨["Name"], [[some "Jane"], [some " "]]⟩ "o" "s" []
    [⟨"Jane", "Jane", "", "", "", "", "", "s", "o"⟩] (by rfl)
  exact ⟨h.1 [some "Jane"] (by simp), h.2 (by simp)⟩

/-- C10: for every contact built by ingestion, the stored last name is the
final whitespace token of the trimmed full name and the stored first name is
the preceding tokens joined by single spaces; a single-token name goes
entirely into the first name with an empty last name. -/
theorem C10_split_name_stored (cm : ContactColMap) (headers : List String)
    (owner source : String) (row : List (Option String)) (c : Contact)
    (h : ingestRow cm headers owner source row = some c) :
    pySplit (pyStrip c.full_name) ≠ []
      ∧ (∀ tok, pySplit (pyStrip c.full_name) = [tok] →
          c.first_name = tok ∧ c.last_name = "")
      ∧ (∀ a b rest, pySplit (pyStrip c.full_name) = a :: b :: rest →
          c.first_name = String.intercalate " " ((a :: b :: rest).dropLast)
            ∧ c.last_name = (a :: b :: rest).getLastD "") := by
  obtain ⟨-, -, hfn, hne, hfirst, hlast⟩ := ingestRow_fields _ _ _ _ _ _ h
  obtain ⟨y, hy⟩ := resolvedFullName_strip cm headers row (hfn ▸ hne)
  have hy' : c.full_name = pyStrip y := hfn.trans hy
  obtain ⟨-, hsplit⟩ := pyStrip_of_strip_ne_empty y (hy' ▸ hne)
  have hidem : pyStrip c.full_name = c.full_name := by
    rw [hy', pyStrip_idem]
  refine ⟨?_, ?_, ?_⟩
  · rw [hidem, hy']
    exact hsplit
  · intro tok htok
    rw [hidem] at htok
    have := split_name_single c.full_name hne tok (by rw [hidem]; exact htok)
    rw [hfirst, hlast, this]
    exact ⟨rfl, rfl⟩
  · intro a b rest htok
    rw [hidem] at htok
    have := split_name_multi c.full_name hne a b rest (by rw [hidem]; exact htok)
    rw [hfirst, hlast, this]
    exact ⟨rfl, rfl⟩

/-- C10 witness: ingesting the name "Jane van Doe" stores first name
"Jane van" and last name "Doe". -/
theorem C10_witness :
    pySplit (pyStrip "Jane van Doe") = ["Jane", "van", "Doe"]
    ∧ (⟨"Jane van Doe", "Jane van", "Doe", "", "", "", "", "s", "o"⟩ : Contact).first_name
        = String.intercalate " " (["Jane", "van", "Doe"].dropLast)
    ∧ (⟨"Jane van Doe", "Jane van", "Doe", "", "", "", "", "s", "o"⟩ : Contact).last_name
        = ["Jane", "van", "Doe"].getLastD "" := by
  have h := C10_split_name_stored (detectContactCols ["Name"]) ["Name"] "o" "s"
    [some "Jane van Doe"]
    ⟨"Jane van Doe", "Jane van", "Doe", "", "", "", "", "s", "o"⟩ (by rfl)
  have he : pySplit (pyStrip "Jane van Doe") = ["Jane", "van", "Doe"] := by decide
  have h3 := h.2.2 "Jane" "van" ["Doe"] (by decide)
  exact ⟨he, h3.1, h3.2⟩

/-- C3: `match_attendees_from_csv` raises the empty-store error exactly when
the contact store has zero rows at call time; with a non-empty store, a
resolvable attendee CSV, and no attendee scoring at or above the threshold,
the call succeeds with an empty result table. -/
theorem C3_empty_store_error (csv : Csv) (t : ℤ) (store : List Contact) :
    (match_attendees_from_csv csv t store = .error emptyStoreMsg ↔ store = [])
      ∧ (store ≠ [] → (detectAttendeeCols csv.headers).name.isSome →
          (∀ att ∈ attendeesOf csv, build_attendee_key att ≠ "" →
            ∀ k s i,
              extractOne (build_attendee_key att) (store.map build_contact_key)
                = some (k, s, i) → s < (t : ℚ)) →
          match_attendees_from_csv csv t store = .ok []) := by
  constructor
  · constructor
    · intro h
      by_contra hne
      rw [match_attendees_from_csv,
        if_neg (by simpa [List.isEmpty_iff] using hne)] at h
      split at h
      · exact absurd (Except.error.inj h) (by decide)
      · exact Except.noConfusion h
    · intro h
      subst h
      rfl
  · intro hne hname hlow
    obtain ⟨ncol, hncol⟩ := Option.isSome_iff_exists.mp hname
    rw [match_attendees_from_csv,
      if_neg (by simpa [List.isEmpty_iff] using hne), hncol]
    show Except.ok ((attendeesOf csv).filterMap (processAttendee store t))
      = Except.ok []
    congr 1
    apply List.filterMap_eq_nil_iff.mpr
    intro att hatt
    by_cases hk : build_attendee_key att = ""
    · simp only [processAttendee]
      rw [if_pos hk]
    · cases hex : extractOne (build_attendee_key att) (store.map build_contact_key) with
      | none =>
        simp only [processAttendee]
        rw [if_neg hk, hex]
      | some v =>
        obtain ⟨k, s, i⟩ := v
        exact processAttendee_none_of_low store t att k s i hex
          (hlow att hatt hk k s i hex)

/-- C3 witness: a one-contact store with a non-matching attendee returns a
successful empty table at threshold 85. -/
theorem C3_witness :
    match_attendees_from_csv ⟨["Name"], [[some "xy"]]⟩ 85
      [⟨"ab", "ab", "", "", "", "", "", "s", "o"⟩] = .ok [] := by
  apply (C3_empty_store_error ⟨["Name"], [[some "xy"]]⟩ 85
    [⟨"ab", "ab", "", "", "", "", "", "s", "o"⟩]).2 (by simp) (by decide)
  intro att hatt hkey k s i hex
  have hA : attendeesOf ⟨["Name"], [[some "xy"]]⟩ = [⟨"xy", "", ""⟩] := by decide
  rw [hA] at hatt
  obtain rfl : att = ⟨"xy", "", ""⟩ := by simpa using hatt
  have he : extractOne (build_attendee_key ⟨"xy", "", ""⟩)
      ([(⟨"ab", "ab", "", "", "", "", "", "s", "o"⟩ : Contact)].map build_contact_key)
      = some ("ab", 0, 0) := by decide
  rw [he] at hex
  obtain ⟨rfl, rfl, rfl⟩ : "ab" = k ∧ (0 : ℚ) = s ∧ 0 = i := by
    simpa [Prod.ext_iff] using hex
  norm_num

/-- C4: the threshold boundary is inclusive: the best score for an attendee
(returned by `extractOne`, an upper bound of all contact-key scores) leads to
an emitted row when it equals the threshold exactly, and to no row when it is
strictly below the threshold. -/
theorem C4_threshold_boundary (store : List Contact) (t : ℤ) (att : Attendee)
    (k : String) (s : ℚ) (i : ℕ)
    (hk : build_attendee_key att ≠ "")
    (hb : extractOne (build_attendee_key att) (store.map build_contact_key)
        = some (k, s, i)) :
    (∀ x ∈ store.map build_contact_key,
        token_sort_score (build_attendee_key att) x ≤ s)
      ∧ (s = (t : ℚ) →
          ∃ r, processAttendee store t att = some r ∧ r.match_score = s)
      ∧ (s < (t : ℚ) → processAttendee store t att = none) := by
  refine ⟨extractOne_max _ _ _ _ _ hb, ?_,
    fun hs => processAttendee_none_of_low store t att k s i hb hs⟩
  intro hst
  exact processAttendee_emit store t att k s i hk hb (by rw [hst]; exact lt_irrefl _)

/-- C4 witness: a score of exactly 100 at threshold 100 is emitted. -/
theorem C4_witness :
    ∃ r, processAttendee [(⟨"ab", "ab", "", "", "", "", "", "s", "o"⟩ : Contact)]
        100 ⟨"ab", "", ""⟩ = some r ∧ r.match_score = 100 := by
  have h := C4_threshold_boundary [⟨"ab", "ab", "", "", "", "", "", "s", "o"⟩] 100
    ⟨"ab", "", ""⟩ "ab" 100 0 (by decide) (by decide)
  exact h.2.1 (by norm_num)

/-- C5: the rows of a successful match are exactly the per-attendee results in
attendee input order, so their attendee fields form a sublist of the attendee
list — non-matches and empty keys are skipped, nothing is reordered. -/
theorem C5_order_preservation (csv : Csv) (t : ℤ) (store : List Contact)
    (rows : List MatchResult)
    (h : match_attendees_from_csv csv t store = .ok rows) :
    rows = (attendeesOf csv).filterMap (processAttendee store t)
      ∧ (rows.map fun r => (r.attendee_name, r.attendee_company, r.attendee_email)).Sublist
          ((attendeesOf csv).map fun a =>
            (a.attendee_name, a.attendee_company, a.attendee_email)) := by
  obtain ⟨-, -, rfl⟩ := match_ok_inv csv t store rows h
  refine ⟨rfl, filterMap_map_sublist _ _ _ _ ?_⟩
  intro a r hr
  obtain ⟨-, k, s, i, j, c, -, -, -, -, rfl⟩ := processAttendee_some_inv store t a r hr
  rfl

/-- C5 witness: with attendees [zz, ab] and a store matching only "ab", the
single output row's attendee fields form a sublist of the input order. -/
theorem C5_witness :
    ([(⟨"ab", "", "", "ab", "", "", "o", "s", "", 100⟩ : MatchResult)].map
        (fun r => (r.attendee_name, r.attendee_company, r.attendee_email))).Sublist
      ((attendeesOf ⟨["Name"], [[some "zz"], [some "ab"]]⟩).map
        (fun a => (a.attendee_name, a.attendee_company, a.attendee_email))) := by
  have h := C5_order_preservation ⟨["Name"], [[some "zz"], [some "ab"]]⟩ 85
    [⟨"ab", "ab", "", "", "", "", "", "s", "o"⟩]
    [⟨"ab", "", "", "ab", "", "", "o", "s", "", 100⟩] (by rfl)
  exact h.2

/-- C6 counterexample: for the concrete store [dupContactA, dupContactB] with
equal keys and distinct rows, no attendee input ever joins dupContactA — the
dict lookup always resolves the shared key to the last row — refuting the
claim that both rows remain independently matchable. -/
theorem C6_counterexample :
    build_contact_key dupContactA = build_contact_key dupContactB
      ∧ dupContactA ≠ dupContactB
      ∧ ∀ (csv : Csv) (t : ℤ) (rows : List MatchResult),
          match_attendees_from_csv csv t [dupContactA, dupContactB] = .ok rows →
          ∀ r ∈ rows, r.contact_title ≠ dupContactA.title := by
  refine ⟨by decide, by decide, ?_⟩
  intro csv t rows h r hr
  obtain ⟨-, -, rfl⟩ := match_ok_inv _ _ _ _ h
  obtain ⟨att, -, hp⟩ := List.mem_filterMap.mp hr
  obtain ⟨-, k, s, i, j, c, hex, -, hj, hc, rfl⟩ :=
    processAttendee_some_inv _ _ _ _ hp
  have hkeys : [dupContactA, dupContactB].map build_contact_key = ["ab", "ab"] := by
    decide
  have hmem := (extractOne_inv _ _ _ _ _ hex).1
  rw [hkeys] at hmem hj
  obtain rfl : k = "ab" := by
    rcases List.mem_cons.mp hmem with h' | h'
    · exact h'
    · simpa using h'
  rw [show lastIdxOf? ["ab", "ab"] "ab" = some 1 from by decide] at hj
  obtain rfl : (1 : ℕ) = j := Option.some.inj hj
  obtain rfl : c = dupContactB := by
    rw [show [dupContactA, dupContactB].get? 1 = some dupContactB from rfl] at hc
    exact (Option.some.inj hc).symm
  show dupContactB.title ≠ dupContactA.title
  decide

/-- C6 amended: no deduplication is performed — every contact row contributes
its key to the candidate list — but the key-to-row dict resolves the winning
key to the LAST row bearing it, so when several rows share a key only the
last one can ever be the row joined into an emitted MatchResult. -/
theorem C6_no_dedup_last_row_wins (store : List Contact) (t : ℤ) (att : Attendee)
    (r : MatchResult) (h : processAttendee store t att = some r) :
    (store.map build_contact_key).length = store.length
      ∧ ∃ k s i j c,
          extractOne (build_attendee_key att) (store.map build_contact_key)
              = some (k, s, i)
            ∧ lastIdxOf? (store.map build_contact_key) k = some j
            ∧ store.get? j = some c
            ∧ build_contact_key c = k
            ∧ (∀ j2 c2, j < j2 → store.get? j2 = some c2 →
                build_contact_key c2 ≠ k)
            ∧ r.contact_name = c.full_name ∧ r.contact_company = c.company
            ∧ r.contact_title = c.title ∧ r.contact_owner = c.owner
            ∧ r.contact_source = c.source ∧ r.contact_email = c.email := by
  obtain ⟨-, k, s, i, j, c, hex, hge, hj, hc, rfl⟩ :=
    processAttendee_some_inv store t att r h
  obtain ⟨hget, hafter⟩ := lastIdxOf?_spec _ _ _ hj
  obtain ⟨c2, hc2, hkey⟩ := get?_map_key store j k hget
  obtain rfl : c2 = c := by rw [hc] at hc2; exact (Option.some.inj hc2).symm
  refine ⟨by simp, k, s, i, j, c2, hex, hj, hc, hkey, ?_,
    rfl, rfl, rfl, rfl, rfl, rfl⟩
  intro j2 cc hj2 hcc2 hk2
  apply hafter j2 hj2
  rw [List.get?_eq_getElem?, List.getElem?_map]
  rw [List.get?_eq_getElem?] at hcc2
  rw [hcc2]
  simp [hk2]

/-- C6 witness: in the duplicate-key store, a matching attendee is joined to
the last row, whose key is the winning key and after which no row carries it. -/
theorem C6_witness :
    ([dupContactA, dupContactB].map build_contact_key).length
        = [dupContactA, dupContactB].length
      ∧ ∃ k s i j c,
          extractOne (build_attendee_key ⟨"ab", "", ""⟩)
              ([dupContactA, dupContactB].map build_contact_key) = some (k, s, i)
            ∧ lastIdxOf? ([dupContactA, dupContactB].map build_contact_key) k = some j
            ∧ [dupContactA, dupContactB].get? j = some c
            ∧ build_contact_key c = k
            ∧ (∀ j2 c2, j < j2 → [dupContactA, dupContactB].get? j2 = some c2 →
                build_contact_key c2 ≠ k)
            ∧ (⟨"ab", "", "", "ab", "", "T2", "o", "s", "", 100⟩ : MatchResult).contact_name
                = c.full_name
            ∧ (⟨"ab", "", "", "ab", "", "T2", "o", "s", "", 100⟩ : MatchResult).contact_company
                = c.company
            ∧ (⟨"ab", "", "", "ab", "", "T2", "o", "s", "", 100⟩ : MatchResult).contact_title
                = c.title
            ∧ (⟨"ab", "", "", "ab", "", "T2", "o", "s", "", 100⟩ : MatchResult).contact_owner
                = c.owner
            ∧ (⟨"ab", "", "", "ab", "", "T2", "o", "s", "", 100⟩ : MatchResult).contact_source
                = c.source
            ∧ (⟨"ab", "", "", "ab", "", "T2", "o", "s", "", 100⟩ : MatchResult).contact_email
                = c.email :=
  C6_no_dedup_last_row_wins [dupContactA, dupContactB] 85 ⟨"ab", "", ""⟩
    ⟨"ab", "", "", "ab", "", "T2", "o", "s", "", 100⟩ (by rfl)

/-- C8 counterexample: an emitted match score can be the non-integral rational
200/3 (the token-sort similarity of "a" and "ab"), refuting the claim that
`match_score` is always an integer. -/
theorem C8_counterexample :
    match_attendees_from_csv ⟨["Name"], [[some "a"]]⟩ 50
        [⟨"ab", "ab", "", "", "", "", "", "s", "o"⟩]
      = .ok [⟨"a", "", "", "ab", "", "", "o", "s", "", 200 / 3⟩]
      ∧ ((200 : ℚ) / 3).den ≠ 1
      ∧ ¬ ∃ z : ℤ, (200 : ℚ) / 3 = (z : ℚ) := by
  refine ⟨by rfl, by decide, ?_⟩
  rintro ⟨z, hz⟩
  have hd : ((z : ℚ)).den = 1 := Rat.den_intCast z
  rw [← hz] at hd
  exact absurd hd (by decide)

/-- C8 amended: every emitted match score is a rational in [0, 100] equal to
the token-sort similarity between the attendee key and the winning contact
key (an integer only when that ratio happens to be integral). -/
theorem C8_score_range_and_source (store : List Contact) (t : ℤ) (att : Attendee)
    (r : MatchResult) (h : processAttendee store t att = some r) :
    0 ≤ r.match_score ∧ r.match_score ≤ 100
      ∧ ∃ k i,
          extractOne (build_attendee_key att) (store.map build_contact_key)
              = some (k, r.match_score, i)
            ∧ r.match_score = token_sort_score (build_attendee_key att) k := by
  obtain ⟨-, k, s, i, j, c, hex, -, -, -, rfl⟩ :=
    processAttendee_some_inv store t att r h
  have hsc := (extractOne_inv _ _ _ _ _ hex).2
  refine ⟨?_, ?_, k, i, hex, hsc⟩
  · rw [hsc]; exact token_sort_score_nonneg _ _
  · rw [hsc]; exact token_sort_score_le_100 _ _

/-- C8 witness: the score 200/3 emitted for attendee "a" against contact key
"ab" lies in [0, 100]. -/
theorem C8_witness :
    0 ≤ ((200 : ℚ) / 3) ∧ ((200 : ℚ) / 3) ≤ 100 := by
  have h := C8_score_range_and_source
    [⟨"ab", "ab", "", "", "", "", "", "s", "o"⟩] 50 ⟨"a", "", ""⟩
    ⟨"a", "", "", "ab", "", "", "o", "s", "", 200 / 3⟩ (by rfl)
  exact ⟨h.1, h.2.1⟩

/-- C9 counterexample: for name "a" and company "b|" (both normalizing to
non-empty strings), the built key is "a | b" and not the claimed
normalized-name ++ " | " ++ normalized-company, because `strip(" |")` also
eats a legitimate trailing pipe of the company. -/
theorem C9_counterexample :
    normalize_string "a" ≠ "" ∧ normalize_string "b|" ≠ ""
      ∧ build_contact_key ⟨"a", "", "", "b|", "", "", "", "", ""⟩
          ≠ normalize_string "a" ++ " | " ++ normalize_string "b|" := by
  decide

/-- C9 amended: the built key is normalized-name ++ " | " ++
normalized-company when both sides are non-empty, provided the normalized
name does not begin with a pipe and the normalized company does not end with
one (otherwise `strip(" |")` eats those pipes); with an empty company the key
is exactly the normalized name provided it neither begins nor ends with a
pipe, and symmetrically for an empty name; the contact-side and attendee-side
key builders compute the same function of the underlying fields. -/
theorem C9_key_format (cr : Contact) :
    (normalize_string cr.full_name ≠ "" → normalize_string cr.company ≠ "" →
      (normalize_string cr.full_name).data.head? ≠ some '|' →
      (normalize_string cr.company).data.getLast? ≠ some '|' →
      build_contact_key cr
        = normalize_string cr.full_name ++ " | " ++ normalize_string cr.company)
    ∧ (normalize_string cr.company = "" →
        (normalize_string cr.full_name).data.head? ≠ some '|' →
        (normalize_string cr.full_name).data.getLast? ≠ some '|' →
        build_contact_key cr = normalize_string cr.full_name)
    ∧ (normalize_string cr.full_name = "" →
        (normalize_string cr.company).data.head? ≠ some '|' →
        (normalize_string cr.company).data.getLast? ≠ some '|' →
        build_contact_key cr = normalize_string cr.company)
    ∧ ∀ a : Attendee, cr.full_name = a.attendee_name →
        cr.company = a.attendee_company →
        build_contact_key cr = build_attendee_key a := by
  refine ⟨?_, ?_, ?_, ?_⟩
  · intro hn hc hp1 hp2
    apply String.ext
    show dropEnds isPipeSpace
        (normalize_string cr.full_name ++ " | " ++ normalize_string cr.company).data
      = (normalize_string cr.full_name ++ " | " ++ normalize_string cr.company).data
    have hd : (normalize_string cr.full_name ++ " | "
          ++ normalize_string cr.company).data
        = (normalize_string cr.full_name).data ++ [' ', '|', ' ']
          ++ (normalize_string cr.company).data := by
      rw [String.data_append, String.data_append, sep_data]
    rw [hd]
    refine dropEnds_mid_sep _ _ ?_ ?_ ?_ ?_
    · intro he; exact hn (String.ext (by rw [he]))
    · intro he; exact hc (String.ext (by rw [he]))
    · intro ch hch
      exact not_pipeSpace_of_norm_head cr.full_name ch hch
        (fun he => hp1 (he ▸ hch))
    · intro ch hch
      exact not_pipeSpace_of_norm_getLast cr.company ch hch
        (fun he => hp2 (he ▸ hch))
  · intro hc0 hp1 hp2
    by_cases hn0 : normalize_string cr.full_name = ""
    · show stripPipeSpace (normalize_string cr.full_name ++ " | "
          ++ normalize_string cr.company) = normalize_string cr.full_name
      rw [hn0, hc0]
      decide
    · apply String.ext
      show dropEnds isPipeSpace
          (normalize_string cr.full_name ++ " | " ++ normalize_string cr.company).data
        = (normalize_string cr.full_name).data
      have hd : (normalize_string cr.full_name ++ " | "
            ++ normalize_string cr.company).data
          = (normalize_string cr.full_name).data ++ [' ', '|', ' '] := by
        rw [String.data_append, String.data_append, sep_data, hc0]
        simp
      rw [hd]
      refine dropEnds_right_sep _ ?_ ?_
      · intro ch hch
        exact not_pipeSpace_of_norm_head cr.full_name ch hch
          (fun he => hp1 (he ▸ hch))
      · intro ch hch
        exact not_pipeSpace_of_norm_getLast cr.full_name ch hch
          (fun he => hp2 (he ▸ hch))
  · intro hn0 hp1 hp2
    by_cases hc0 : normalize_string cr.company = ""
    · show stripPipeSpace (normalize_string cr.full_name ++ " | "
          ++ normalize_string cr.company) = normalize_string cr.company
      rw [hn0, hc0]
      decide
    · apply String.ext
      show dropEnds isPipeSpace
          (normalize_string cr.full_name ++ " | " ++ normalize_string cr.company).data
        = (normalize_string cr.company).data
      have hd : (normalize_string cr.full_name ++ " | "
            ++ normalize_string cr.company).data
          = [' ', '|', ' '] ++ (normalize_string cr.company).data := by
        rw [String.data_append, String.data_append, sep_data, hn0]
        simp
      rw [hd]
      refine dropEnds_left_sep _ ?_ ?_ ?_
      · intro he; exact hc0 (String.ext (by rw [he]))
      · intro ch hch
        exact not_pipeSpace_of_norm_head cr.company ch hch
          (fun he => hp1 (he ▸ hch))
      · intro ch hch
        exact not_pipeSpace_of_norm_getLast cr.company ch hch
          (fun he => hp2 (he ▸ hch))
  · intro a h1 h2
    rw [build_contact_key, build_attendee_key, h1, h2]

/-- C9 witness: for name "Jane Doe" and company "Acme" the built contact key
is "jane doe | acme", and it agrees with the attendee-side key. -/
theorem C9_witness :
    build_contact_key ⟨"Jane Doe", "", "", "Acme", "", "", "", "", ""⟩
        = "jane doe | acme"
      ∧ build_contact_key ⟨"Jane Doe", "", "", "Acme", "", "", "", "", ""⟩
          = build_attendee_key ⟨"Jane Doe", "Acme", ""⟩ := by
  have h := C9_key_format ⟨"Jane Doe", "", "", "Acme", "", "", "", "", ""⟩
  refine ⟨(h.1 (by decide) (by decide) (by decide) (by decide)).trans (by decide), ?_⟩
  exact h.2.2.2 ⟨"Jane Doe", "Acme", ""⟩ rfl rfl

end ContactsMatcher
